import Mathlib

/-!
Verification development for the `myelin.torch.module.lif` module:
leaky integrate-and-fire (LIF) spiking-neuron cells, the sequence
unrolling layer and the constant-current encoder.

Tensors are embedded as functions from finite index spaces to a scalar
type `K` (a linear ordered field; `ℚ` instantiates it for concrete
evaluations, `ℝ` for the weight-initialisation scaling).  A tensor of
shape `[batch, hidden]` is `Fin batch → Fin hidden → K`; tensors of
arbitrary shape `S : List ℕ` use the index space `Idx S`.

The module file `myelin/torch/module/lif.py` is embedded directly.
The functional kernel it imports (`myelin/functional/lif.py`:
`LIFParameters`, `LIFState`, `LIFFeedForwardState`, `lif_step`,
`lif_feed_forward_step`, `lif_current_encoder`) is not part of the
given sources, so those definitions are modelled from the spec
(sections 3 and 4.1-4.3), as marked in their doc comments.
-/

/-- Index space of a tensor shape: `Idx [n₁, …, nₖ] = Fin n₁ × ⋯ × Fin nₖ`. -/
def Idx : List ℕ → Type
  | [] => Unit
  | n :: rest => Fin n × Idx rest

/-- A tensor of shape `s` with scalar entries in `K`. -/
abbrev Tensor (s : List ℕ) (K : Type) : Type := Idx s → K

/-- Modelled from the spec (3): immutable LIF configuration record with
inverse time constants, leak, threshold and reset potentials. -/
structure LIFParameters (K : Type) where
  tau_syn_inv : K
  tau_mem_inv : K
  v_leak : K
  v_th : K
  v_reset : K

/-- Modelled from the spec (3): recurrent LIF state `(z, v, i)`, each of
shape `[batch, hidden]`. -/
structure LIFState (batch hidden : ℕ) (K : Type) where
  z : Fin batch → Fin hidden → K
  v : Fin batch → Fin hidden → K
  i : Fin batch → Fin hidden → K

/-- Modelled from the spec (3): feed-forward LIF state `(v, i)` over an
arbitrary index space `ι` (shape `[batch, *feature_shape]`). -/
structure LIFFeedForwardState (ι : Type) (K : Type) where
  v : ι → K
  i : ι → K

/-- Modelled from the spec (4.1 step 4): Heaviside threshold,
`1` where the argument is `≥ 0`, else `0`. -/
def heaviside {K : Type} [LinearOrderedField K] (x : K) : K :=
  if 0 ≤ x then 1 else 0

/-- `x @ wᵀ`: the linear projection `input_tensor @ weights^T` of
spec 4.1 step 1, entrywise. -/
def linearT {K : Type} [LinearOrderedField K] {b n h : ℕ}
    (x : Fin b → Fin n → K) (w : Fin h → Fin n → K) : Fin b → Fin h → K :=
  fun a c => ∑ j, x a j * w c j

/-- Modelled from the spec (4.1 steps 1-2): synaptic current update
`i_new = i + dt * tau_syn_inv * (-i + input_current)` where
`input_current = input @ input_weightsᵀ + z @ recurrent_weightsᵀ`. -/
def lif_step_i_new {K : Type} [LinearOrderedField K] {batch n h : ℕ}
    (input : Fin batch → Fin n → K) (s : LIFState batch h K)
    (input_weights : Fin h → Fin n → K) (recurrent_weights : Fin h → Fin h → K)
    (p : LIFParameters K) (dt : K) : Fin batch → Fin h → K :=
  fun a c =>
    s.i a c + dt * p.tau_syn_inv *
      (-(s.i a c) + (linearT input input_weights a c + linearT s.z recurrent_weights a c))

/-- Modelled from the spec (4.1 step 3): membrane potential before the
reset, `v_new = v + dt * tau_mem_inv * ((v_leak - v) + i_new)`. -/
def lif_step_v_decayed {K : Type} [LinearOrderedField K] {batch n h : ℕ}
    (input : Fin batch → Fin n → K) (s : LIFState batch h K)
    (input_weights : Fin h → Fin n → K) (recurrent_weights : Fin h → Fin h → K)
    (p : LIFParameters K) (dt : K) : Fin batch → Fin h → K :=
  fun a c =>
    s.v a c + dt * p.tau_mem_inv *
      ((p.v_leak - s.v a c) + lif_step_i_new input s input_weights recurrent_weights p dt a c)

/-- Modelled from the spec (4.1 step 4): spike output
`z_new = heaviside (v_new - v_th)`. -/
def lif_step_z_new {K : Type} [LinearOrderedField K] {batch n h : ℕ}
    (input : Fin batch → Fin n → K) (s : LIFState batch h K)
    (input_weights : Fin h → Fin n → K) (recurrent_weights : Fin h → Fin h → K)
    (p : LIFParameters K) (dt : K) : Fin batch → Fin h → K :=
  fun a c =>
    heaviside (lif_step_v_decayed input s input_weights recurrent_weights p dt a c - p.v_th)

/-- Modelled from the spec (4.1 step 5): reset,
`v_new = (1 - z_new) * v_new + z_new * v_reset`. -/
def lif_step_v_new {K : Type} [LinearOrderedField K] {batch n h : ℕ}
    (input : Fin batch → Fin n → K) (s : LIFState batch h K)
    (input_weights : Fin h → Fin n → K) (recurrent_weights : Fin h → Fin h → K)
    (p : LIFParameters K) (dt : K) : Fin batch → Fin h → K :=
  fun a c =>
    (1 - lif_step_z_new input s input_weights recurrent_weights p dt a c) *
        lif_step_v_decayed input s input_weights recurrent_weights p dt a c +
      lif_step_z_new input s input_weights recurrent_weights p dt a c * p.v_reset

/-- Modelled from the spec (4.1): one recurrent LIF integration step,
returning the spike output and the carried state `(z_new, v_new, i_new)`. -/
def lif_step {K : Type} [LinearOrderedField K] {batch n h : ℕ}
    (input : Fin batch → Fin n → K) (s : LIFState batch h K)
    (input_weights : Fin h → Fin n → K) (recurrent_weights : Fin h → Fin h → K)
    (p : LIFParameters K) (dt : K) :
    (Fin batch → Fin h → K) × LIFState batch h K :=
  (lif_step_z_new input s input_weights recurrent_weights p dt,
   { z := lif_step_z_new input s input_weights recurrent_weights p dt
     v := lif_step_v_new input s input_weights recurrent_weights p dt
     i := lif_step_i_new input s input_weights recurrent_weights p dt })

/-- Modelled from the spec (4.2): feed-forward LIF step — same as 4.1
steps 2-5 with the input current supplied directly. -/
def lif_feed_forward_step {K : Type} [LinearOrderedField K] {ι : Type}
    (input : ι → K) (s : LIFFeedForwardState ι K)
    (p : LIFParameters K) (dt : K) : (ι → K) × LIFFeedForwardState ι K :=
  let i_new := fun a => s.i a + dt * p.tau_syn_inv * (-(s.i a) + input a)
  let v_decayed := fun a => s.v a + dt * p.tau_mem_inv * ((p.v_leak - s.v a) + i_new a)
  let z_new := fun a => heaviside (v_decayed a - p.v_th)
  let v_new := fun a => (1 - z_new a) * v_decayed a + z_new a * p.v_reset
  (z_new, { v := v_new, i := i_new })

/-- Modelled from the spec (4.3): current-encoder step — membrane update
driven directly by a constant external current, then spike and reset as
in 4.1 steps 4-5; returns `(z_new, v_new)`. -/
def lif_current_encoder {K : Type} [LinearOrderedField K] {ι : Type}
    (input_current : ι → K) (v : ι → K)
    (p : LIFParameters K) (dt : K) : (ι → K) × (ι → K) :=
  let v_decayed := fun a => v a + dt * p.tau_mem_inv * ((p.v_leak - v a) + input_current a)
  let z_new := fun a => heaviside (v_decayed a - p.v_th)
  let v_new := fun a => (1 - z_new a) * v_decayed a + z_new a * p.v_reset
  (z_new, v_new)

/-- `LIFCell` (src): owns the two weight matrices (shapes fixed by the
types: `input_weights : [hidden, input]`, `recurrent_weights :
[hidden, hidden]`), the parameter record and the time step.  The
`hidden_size` attribute is the type index `h`. -/
structure LIFCell (n h : ℕ) (K : Type) where
  input_weights : Fin h → Fin n → K
  recurrent_weights : Fin h → Fin h → K
  p : LIFParameters K
  dt : K

/-- `LIFCell.__init__` (src): weights are the standard-normal draws
`g1`, `g2` (the `torch.randn` samples, taken here as arguments) divided
by the square root of the fan-in. -/
noncomputable def LIFCell.construct (n h : ℕ)
    (g1 : Fin h → Fin n → ℝ) (g2 : Fin h → Fin h → ℝ)
    (p : LIFParameters ℝ) (dt : ℝ) : LIFCell n h ℝ :=
  { input_weights := fun a b => g1 a b / Real.sqrt n
    recurrent_weights := fun a b => g2 a b / Real.sqrt h
    p := p
    dt := dt }

/-- `LIFCell.initial_state` (src): zero-filled `LIFState` of shape
`[batch, hidden]` (the dtype is the scalar type `K`). -/
def LIFCell.initial_state {n h : ℕ} {K : Type} [LinearOrderedField K]
    (_c : LIFCell n h K) (batch : ℕ) : LIFState batch h K :=
  { z := fun _ _ => 0
    v := fun _ _ => 0
    i := fun _ _ => 0 }

/-- `LIFCell.forward` (src): delegates to `lif_step` with the owned
weights, parameters and time step. -/
def LIFCell.forward {n h : ℕ} {K : Type} [LinearOrderedField K] {batch : ℕ}
    (c : LIFCell n h K) (input : Fin batch → Fin n → K) (s : LIFState batch h K) :
    (Fin batch → Fin h → K) × LIFState batch h K :=
  lif_step input s c.input_weights c.recurrent_weights c.p c.dt

/-- `LIFCell.forward` with the module value threaded through explicitly:
the Python method assigns no attribute of `self`, so the module comes
back unchanged as the first component. -/
def LIFCell.forwardM {n h : ℕ} {K : Type} [LinearOrderedField K] {batch : ℕ}
    (c : LIFCell n h K) (input : Fin batch → Fin n → K) (s : LIFState batch h K) :
    LIFCell n h K × ((Fin batch → Fin h → K) × LIFState batch h K) :=
  (c, LIFCell.forward c input s)

/-- `LIFFeedForwardCell` (src): free-form feature shape, parameters and
time step; no weight fields (no trainable parameters). -/
structure LIFFeedForwardCell (shape : List ℕ) (K : Type) where
  p : LIFParameters K
  dt : K

/-- `LIFFeedForwardCell.initial_state` (src): zero-filled
`LIFFeedForwardState` of shape `[batch, *shape]`. -/
def LIFFeedForwardCell.initial_state {shape : List ℕ} {K : Type} [LinearOrderedField K]
    (_c : LIFFeedForwardCell shape K) (batch : ℕ) :
    LIFFeedForwardState (Fin batch × Idx shape) K :=
  { v := fun _ => 0
    i := fun _ => 0 }

/-- `LIFFeedForwardCell.forward` (src): delegates to
`lif_feed_forward_step`. -/
def LIFFeedForwardCell.forward {shape : List ℕ} {K : Type} [LinearOrderedField K] {batch : ℕ}
    (c : LIFFeedForwardCell shape K) (input : Fin batch × Idx shape → K)
    (s : LIFFeedForwardState (Fin batch × Idx shape) K) :
    (Fin batch × Idx shape → K) × LIFFeedForwardState (Fin batch × Idx shape) K :=
  lif_feed_forward_step input s c.p c.dt

/-- `LIFFeedForwardCell.forward` with the module value threaded through:
the method assigns no attribute of `self`. -/
def LIFFeedForwardCell.forwardM {shape : List ℕ} {K : Type} [LinearOrderedField K] {batch : ℕ}
    (c : LIFFeedForwardCell shape K) (input : Fin batch × Idx shape → K)
    (s : LIFFeedForwardState (Fin batch × Idx shape) K) :
    LIFFeedForwardCell shape K ×
      ((Fin batch × Idx shape → K) × LIFFeedForwardState (Fin batch × Idx shape) K) :=
  (c, LIFFeedForwardCell.forward c input s)

/-- Modelled from the spec (section 7, engine-level errors):
`torch.stack` on a list of equally-shaped tensors succeeds on a
non-empty list and raises an engine error on the empty list. -/
def torch_stack {α : Type} (l : List α) : Option (List α) :=
  if l.isEmpty then none else some l

/-- `LIFLayer` (src): owns one cell, embedded as its step function
(`self.cell(input, state)` is the only way the layer uses the cell). -/
structure LIFLayer (Inp Out St : Type) where
  cell : Inp → St → Out × St

/-- The loop of `LIFLayer.forward` (src): iterate over the unbound time
slices, call the cell, thread its returned state into the next call and
append each output to the accumulator. -/
def LIFLayer.runLoop {Inp Out St : Type} (cell : Inp → St → Out × St) :
    List Inp → St → List Out → List Out × St
  | [], state, outputs => (outputs, state)
  | x :: rest, state, outputs =>
    LIFLayer.runLoop cell rest (cell x state).2 (outputs ++ [(cell x state).1])

/-- `LIFLayer.forward` (src): unbind the input along time, run the loop
from the given state with an empty output list, and stack the outputs
(`torch.stack` fails on an empty list, hence the `Option`). -/
def LIFLayer.forward {Inp Out St : Type} (l : LIFLayer Inp Out St)
    (input : List Inp) (state : St) : Option (List Out × St) :=
  match torch_stack (LIFLayer.runLoop l.cell input state []).1 with
  | none => none
  | some outs => some (outs, (LIFLayer.runLoop l.cell input state []).2)

/-- `LIFLayer.forward` with the module value threaded through: the
method assigns no attribute of `self`. -/
def LIFLayer.forwardM {Inp Out St : Type} (l : LIFLayer Inp Out St)
    (input : List Inp) (state : St) :
    LIFLayer Inp Out St × Option (List Out × St) :=
  (l, LIFLayer.forward l input state)

/-- Reference definition, written from the spec's words (4.6 and the
testable property "Layer unrolling equivalence"): manually invoke the
cell once per time step 0..T-1 in order, thread the returned state by
hand into the next call, and collect the per-step spike outputs in time
order together with the state returned by the last step. -/
def manualUnroll {Inp Out St : Type} (cell : Inp → St → Out × St) :
    List Inp → St → List Out × St
  | [], s => ([], s)
  | x :: rest, s =>
    ((cell x s).1 :: (manualUnroll cell rest (cell x s).2).1,
     (manualUnroll cell rest (cell x s).2).2)

/-- `LIFConstantCurrentEncoder` (src): sequence length, parameters and
time step (the `device` attribute has no value-level content here). -/
structure LIFConstantCurrentEncoder (K : Type) where
  seq_length : ℕ
  p : LIFParameters K
  dt : K

/-- Intermediate state of the loop in `LIFConstantCurrentEncoder.forward`
(src): the local tensors `z`, `v` and the two preallocated output
buffers `voltages`, `spikes` of shape `[seq_length, *x.shape]`. -/
structure EncState (N : ℕ) (shape : List ℕ) (K : Type) where
  z : Idx shape → K
  v : Idx shape → K
  voltages : Idx (N :: shape) → K
  spikes : Idx (N :: shape) → K

/-- Modelled from the spec (section 7, engine-level errors): the slice
assignment `t[ts, :, :] = val` used in `LIFConstantCurrentEncoder.forward`
(src).  It writes `val` into position `ts` of dimension 0 when the buffer
has at least three dimensions, and raises an engine indexing error
("too many indices") when the buffer has fewer. -/
def sliceAssign {N : ℕ} {shape : List ℕ} {K : Type}
    (t : Idx (N :: shape) → K) (ts : Fin N) (val : Idx shape → K) :
    Option (Idx (N :: shape) → K) :=
  if 2 ≤ shape.length then
    some (fun ix => if ix.1 = ts then val ix.2 else t ix)
  else none

/-- One iteration of the loop in `LIFConstantCurrentEncoder.forward`
(src): call `lif_current_encoder` on the constant input and the current
potential, then write `v` and `z` into the buffers at index `ts`. -/
def encoderStep {N : ℕ} {shape : List ℕ} {K : Type} [LinearOrderedField K]
    (x : Idx shape → K) (p : LIFParameters K) (dt : K)
    (st : EncState N shape K) (ts : Fin N) : Option (EncState N shape K) :=
  match sliceAssign st.voltages ts (lif_current_encoder x st.v p dt).2 with
  | none => none
  | some volt =>
    match sliceAssign st.spikes ts (lif_current_encoder x st.v p dt).1 with
    | none => none
    | some spk =>
      some { z := (lif_current_encoder x st.v p dt).1
             v := (lif_current_encoder x st.v p dt).2
             voltages := volt
             spikes := spk }

/-- The loop `for ts in range(seq_length)` of
`LIFConstantCurrentEncoder.forward` (src), with an explicit iteration
count `fuel`: runs `encoderStep` at `ts, ts+1, …` while `ts < N`. -/
def encoderIter {N : ℕ} {shape : List ℕ} {K : Type} [LinearOrderedField K]
    (x : Idx shape → K) (p : LIFParameters K) (dt : K) :
    ℕ → ℕ → EncState N shape K → Option (EncState N shape K)
  | 0, _, st => some st
  | fuel + 1, ts, st =>
    if h : ts < N then
      match encoderStep x p dt st ⟨ts, h⟩ with
      | none => none
      | some st1 => encoderIter x p dt fuel (ts + 1) st1
    else some st

/-- `LIFConstantCurrentEncoder.forward` (src): start from zero `v`, `z`
and zero buffers of shape `[seq_length, *x.shape]`, run the loop for
`seq_length` iterations, and return `(voltages, spikes)`. -/
def LIFConstantCurrentEncoder.forward {shape : List ℕ} {K : Type} [LinearOrderedField K]
    (e : LIFConstantCurrentEncoder K) (x : Idx shape → K) :
    Option (Tensor (e.seq_length :: shape) K × Tensor (e.seq_length :: shape) K) :=
  match encoderIter x e.p e.dt e.seq_length 0
      { z := fun _ => 0, v := fun _ => 0, voltages := fun _ => 0, spikes := fun _ => 0 } with
  | none => none
  | some st => some (st.voltages, st.spikes)

/-- `LIFConstantCurrentEncoder.forward` with the module value threaded
through: the method assigns no attribute of `self` (only locals). -/
def LIFConstantCurrentEncoder.forwardM {shape : List ℕ} {K : Type} [LinearOrderedField K]
    (e : LIFConstantCurrentEncoder K) (x : Idx shape → K) :
    LIFConstantCurrentEncoder K ×
      Option (Tensor (e.seq_length :: shape) K × Tensor (e.seq_length :: shape) K) :=
  (e, LIFConstantCurrentEncoder.forward e x)

/-- Reference definition, written from the spec's words (4.3, 4.7 and C6):
the pure recurrence of the encoder — start from zero spike and zero
membrane potential and apply the current-encoder step `t` times with the
same constant input; `encoderVZ x p dt t = (z_t, v_t)`. -/
def encoderVZ {shape : List ℕ} {K : Type} [LinearOrderedField K]
    (x : Idx shape → K) (p : LIFParameters K) (dt : K) :
    ℕ → (Idx shape → K) × (Idx shape → K)
  | 0 => (fun _ => 0, fun _ => 0)
  | t + 1 => lif_current_encoder x (encoderVZ x p dt t).2 p dt

/-- Concrete LIF parameter record over `ℚ` used by the evaluation
witnesses. -/
def pQ : LIFParameters ℚ :=
  { tau_syn_inv := 1, tau_mem_inv := 1, v_leak := 0, v_th := 1, v_reset := 0 }

/-- Concrete parameter record with threshold `0` and reset `2`, so that a
unit input makes the single neuron spike. -/
def pSpike : LIFParameters ℚ :=
  { tau_syn_inv := 1, tau_mem_inv := 1, v_leak := 0, v_th := 0, v_reset := 2 }

/-- Concrete 1-input/1-hidden cell over `ℚ` with unit weights. -/
def cellW : LIFCell 1 1 ℚ :=
  { input_weights := fun _ _ => 1, recurrent_weights := fun _ _ => 1, p := pQ, dt := 1 }

/-- Concrete zero recurrent state for one batch element and one neuron. -/
def stateW : LIFState 1 1 ℚ :=
  { z := fun _ _ => 0, v := fun _ _ => 0, i := fun _ _ => 0 }

/-- Concrete layer over scalar cells used by the evaluation witnesses. -/
def layerW : LIFLayer ℚ ℚ ℚ :=
  { cell := fun x s => (x + s, s + 1) }

/-- Concrete one-step encoder over `ℚ` used by the evaluation witnesses. -/
def encW : LIFConstantCurrentEncoder ℚ :=
  { seq_length := 1, p := pQ, dt := 1 }

/-- Concrete unit input tensor of shape `[1, 1]`. -/
def inputA : Fin 1 → Fin 1 → ℚ := fun _ _ => 1

/-- Concrete `-1` input tensor of shape `[1, 1]`, which keeps the neuron
below threshold. -/
def inputB : Fin 1 → Fin 1 → ℚ := fun _ _ => -1

/-- Concrete all-ones `1 × 1` weight matrix. -/
def wOne : Fin 1 → Fin 1 → ℚ := fun _ _ => 1

/-- Concrete zero input of tensor shape `[1, 1]` for the encoder. -/
def xTwoDim : Idx [1, 1] → ℚ := fun _ => 0

/-- Concrete zero input of tensor shape `[1]` (one dimension only). -/
def xOneDim : Idx [1] → ℚ := fun _ => 0

/-- Concrete zero input of scalar tensor shape `[]`. -/
def xScalar : Idx [] → ℚ := fun _ => 0

/-- The state of the encoder loop after a successful iteration at time
`ts`: locals `z`, `v` replaced by the step result `zv` and the buffers
updated at index `ts`. -/
def encWrite {N : ℕ} {shape : List ℕ} {K : Type} (st : EncState N shape K) (ts : Fin N)
    (zv : (Idx shape → K) × (Idx shape → K)) : EncState N shape K :=
  { z := zv.1
    v := zv.2
    voltages := fun ix => if ix.1 = ts then zv.2 ix.2 else st.voltages ix
    spikes := fun ix => if ix.1 = ts then zv.1 ix.2 else st.spikes ix }

/-- `manualUnroll` produces one output per time step. -/
theorem manualUnroll_length {Inp Out St : Type} (cell : Inp → St → Out × St) :
    ∀ (l : List Inp) (s : St), (manualUnroll cell l s).1.length = l.length
  | [], _ => rfl
  | _ :: rest, s => by
    simp [manualUnroll, manualUnroll_length cell rest]

/-- The accumulator loop of `LIFLayer.forward` computes exactly the
manual unrolling, appended to the incoming accumulator. -/
theorem runLoop_eq_manualUnroll {Inp Out St : Type} (cell : Inp → St → Out × St) :
    ∀ (l : List Inp) (s : St) (acc : List Out),
      LIFLayer.runLoop cell l s acc =
        (acc ++ (manualUnroll cell l s).1, (manualUnroll cell l s).2)
  | [], s, acc => by simp [LIFLayer.runLoop, manualUnroll]
  | x :: rest, s, acc => by
    simp [LIFLayer.runLoop, manualUnroll,
      runLoop_eq_manualUnroll cell rest (cell x s).2]

/-- C1: for a non-empty input sequence, `LIFLayer.forward` iterates the
time steps in order, threading each step's returned state into the next
call (step 0 receiving the initial state), and returns exactly the pair
(stack of the per-step spike outputs in time order, state returned by
the last step) — identical, step for step, to manually invoking the
owned cell once per step and threading the state by hand
(`manualUnroll`), which also yields one output per time step. -/
theorem layer_forward_unrolls {Inp Out St : Type} (l : LIFLayer Inp Out St)
    (inputs : List Inp) (s0 : St) (hne : inputs ≠ []) :
    LIFLayer.forward l inputs s0 = some (manualUnroll l.cell inputs s0) ∧
      (manualUnroll l.cell inputs s0).1.length = inputs.length := by
  refine ⟨?_, manualUnroll_length l.cell inputs s0⟩
  cases inputs with
  | nil => exact absurd rfl hne
  | cons x rest =>
    unfold LIFLayer.forward
    rw [runLoop_eq_manualUnroll]
    simp [manualUnroll, torch_stack]

/-- Evaluation witness for `layer_forward_unrolls` on a concrete layer,
a two-step input sequence and initial state `0`. -/
theorem layer_forward_unrolls_witness :
    LIFLayer.forward layerW [1, 2] 0 = some (manualUnroll layerW.cell [1, 2] 0) ∧
      (manualUnroll layerW.cell [1, 2] 0).1.length = ([1, 2] : List ℚ).length :=
  layer_forward_unrolls layerW [1, 2] 0 (by decide)

/-- C2: `LIFCell.initial_state` returns a `LIFState` whose three tensors
`z`, `v`, `i` are zero-filled; their shape `[batch, hidden]` is fixed by
the result type `LIFState batch h K`, and the entry type `K` plays the
role of the requested dtype. -/
theorem cell_initial_state_zero {K : Type} [LinearOrderedField K] {n h : ℕ}
    (c : LIFCell n h K) (batch : ℕ) (a : Fin batch) (b : Fin h) :
    (LIFCell.initial_state c batch).z a b = 0 ∧
      (LIFCell.initial_state c batch).v a b = 0 ∧
      (LIFCell.initial_state c batch).i a b = 0 :=
  ⟨rfl, rfl, rfl⟩

/-- C3: `LIFCell.forward` is a pure function of the input, the state,
the two weight matrices, the parameter record and the time step: any two
cells agreeing on those fields produce equal `(output, next_state)`
pairs on equal arguments, so repeated calls are identical and no hidden
internal state is involved. -/
theorem cell_forward_deterministic {K : Type} [LinearOrderedField K] {n h batch : ℕ}
    (c c' : LIFCell n h K) (input : Fin batch → Fin n → K) (s : LIFState batch h K)
    (hw : c.input_weights = c'.input_weights)
    (hr : c.recurrent_weights = c'.recurrent_weights)
    (hp : c.p = c'.p) (hd : c.dt = c'.dt) :
    LIFCell.forward c input s = LIFCell.forward c' input s := by
  unfold LIFCell.forward
  rw [hw, hr, hp, hd]

/-- Evaluation witness for `cell_forward_deterministic`: two calls on the
same concrete cell, input and state agree. -/
theorem cell_forward_deterministic_witness :
    LIFCell.forward cellW inputA stateW = LIFCell.forward cellW inputA stateW :=
  cell_forward_deterministic cellW cellW inputA stateW rfl rfl rfl rfl

/-- C4: in the state returned by one LIF step, every neuron whose spike
output is `1` has its membrane potential reset to exactly `v_reset`,
while a neuron with spike output `0` keeps the computed pre-reset
potential `lif_step_v_decayed`; and `LIFCell.forward` returns exactly
this `lif_step` of its owned fields. -/
theorem lif_step_reset {K : Type} [LinearOrderedField K] {batch n h : ℕ}
    (input : Fin batch → Fin n → K) (s : LIFState batch h K)
    (w1 : Fin h → Fin n → K) (w2 : Fin h → Fin h → K)
    (p : LIFParameters K) (dt : K) (a : Fin batch) (c : Fin h) :
    ((lif_step input s w1 w2 p dt).2.z a c = 1 →
      (lif_step input s w1 w2 p dt).2.v a c = p.v_reset) ∧
    ((lif_step input s w1 w2 p dt).2.z a c = 0 →
      (lif_step input s w1 w2 p dt).2.v a c = lif_step_v_decayed input s w1 w2 p dt a c) ∧
    LIFCell.forward { input_weights := w1, recurrent_weights := w2, p := p, dt := dt } input s
      = lif_step input s w1 w2 p dt := by
  refine ⟨fun hz => ?_, fun hz => ?_, rfl⟩
  · have hz' : lif_step_z_new input s w1 w2 p dt a c = 1 := hz
    show lif_step_v_new input s w1 w2 p dt a c = p.v_reset
    unfold lif_step_v_new
    rw [hz']
    ring
  · have hz' : lif_step_z_new input s w1 w2 p dt a c = 0 := hz
    show lif_step_v_new input s w1 w2 p dt a c = lif_step_v_decayed input s w1 w2 p dt a c
    unfold lif_step_v_new
    rw [hz']
    ring

/-- Evaluation witness for `lif_step_reset`: with threshold `0` and
reset `2`, a unit input makes the neuron spike and its emitted potential
is exactly `v_reset = 2`; with input `-1` the neuron stays silent and
keeps the computed pre-reset potential. -/
theorem lif_step_reset_witness :
    ((lif_step inputA stateW wOne wOne pSpike 1).2.z 0 0 = 1 ∧
      (lif_step inputA stateW wOne wOne pSpike 1).2.v 0 0 = pSpike.v_reset) ∧
    ((lif_step inputB stateW wOne wOne pSpike 1).2.z 0 0 = 0 ∧
      (lif_step inputB stateW wOne wOne pSpike 1).2.v 0 0 =
        lif_step_v_decayed inputB stateW wOne wOne pSpike 1 0 0) :=
  ⟨⟨by norm_num [lif_step, lif_step_z_new, lif_step_v_decayed, lif_step_i_new,
        linearT, heaviside, inputA, stateW, wOne, pSpike],
    (lif_step_reset inputA stateW wOne wOne pSpike 1 0 0).1
      (by norm_num [lif_step, lif_step_z_new, lif_step_v_decayed, lif_step_i_new,
        linearT, heaviside, inputA, stateW, wOne, pSpike])⟩,
   ⟨by norm_num [lif_step, lif_step_z_new, lif_step_v_decayed, lif_step_i_new,
        linearT, heaviside, inputB, stateW, wOne, pSpike],
    (lif_step_reset inputB stateW wOne wOne pSpike 1 0 0).2.1
      (by norm_num [lif_step, lif_step_z_new, lif_step_v_decayed, lif_step_i_new,
        linearT, heaviside, inputB, stateW, wOne, pSpike])⟩⟩

/-- C7: the constructed cell's `input_weights` (shape `[hidden, input]`
by its type) is the standard-normal draw `g1` scaled by
`1 / sqrt input_size`, and `recurrent_weights` (shape
`[hidden, hidden]`) is the draw `g2` scaled by `1 / sqrt hidden_size`. -/
theorem cell_construct_scaled (n h : ℕ)
    (g1 : Fin h → Fin n → ℝ) (g2 : Fin h → Fin h → ℝ)
    (p : LIFParameters ℝ) (dt : ℝ) (a : Fin h) (b : Fin n) (a' b' : Fin h) :
    (LIFCell.construct n h g1 g2 p dt).input_weights a b = 1 / Real.sqrt n * g1 a b ∧
      (LIFCell.construct n h g1 g2 p dt).recurrent_weights a' b' =
        1 / Real.sqrt h * g2 a' b' := by
  constructor
  · show g1 a b / Real.sqrt n = 1 / Real.sqrt n * g1 a b
    ring
  · show g2 a' b' / Real.sqrt h = 1 / Real.sqrt h * g2 a' b'
    ring

/-- C8: `LIFFeedForwardCell.initial_state` returns a zero-filled
`LIFFeedForwardState` with `v` and `i` of shape `[batch, *shape]` (fixed
by the index type `Fin batch × Idx shape`), and the cell consists of
nothing but its parameter record and time step — in particular it owns
no weight tensors and no trainable parameters. -/
theorem feed_forward_cell_state {K : Type} [LinearOrderedField K] (shape : List ℕ)
    (c : LIFFeedForwardCell shape K) (batch : ℕ) (ix : Fin batch × Idx shape) :
    (LIFFeedForwardCell.initial_state c batch).v ix = 0 ∧
      (LIFFeedForwardCell.initial_state c batch).i ix = 0 ∧
      c = LIFFeedForwardCell.mk c.p c.dt :=
  ⟨rfl, rfl, rfl⟩

/-- C9: no forward call mutates its module: with the module value
threaded through explicitly (`forwardM`), each of `LIFCell`,
`LIFFeedForwardCell`, `LIFLayer` and `LIFConstantCurrentEncoder` comes
back unchanged — in particular the weight matrices, the parameter
record, `dt`, and the `hidden_size`/`shape`/`seq_length` data are
untouched by `forward`. -/
theorem forward_no_module_mutation {K : Type} [LinearOrderedField K]
    {n h batch : ℕ} {shape : List ℕ} {Inp Out St : Type}
    (c : LIFCell n h K) (input : Fin batch → Fin n → K) (s : LIFState batch h K)
    (f : LIFFeedForwardCell shape K) (y : Fin batch × Idx shape → K)
    (t : LIFFeedForwardState (Fin batch × Idx shape) K)
    (l : LIFLayer Inp Out St) (xs : List Inp) (s0 : St)
    (e : LIFConstantCurrentEncoder K) (x : Idx shape → K) :
    (LIFCell.forwardM c input s).1 = c ∧
      (LIFFeedForwardCell.forwardM f y t).1 = f ∧
      (LIFLayer.forwardM l xs s0).1 = l ∧
      (LIFConstantCurrentEncoder.forwardM e x).1 = e :=
  ⟨rfl, rfl, rfl, rfl⟩

/-- On a buffer with at least three dimensions (`2 ≤ shape.length`), one
iteration of the encoder loop succeeds and produces `encWrite`. -/
theorem encoderStep_eq {N : ℕ} {shape : List ℕ} {K : Type} [LinearOrderedField K]
    (x : Idx shape → K) (p : LIFParameters K) (dt : K) (hlen : 2 ≤ shape.length)
    (st : EncState N shape K) (ts : Fin N) :
    encoderStep x p dt st ts = some (encWrite st ts (lif_current_encoder x st.v p dt)) := by
  simp [encoderStep, sliceAssign, encWrite, hlen]

/-- Loop invariant of `LIFConstantCurrentEncoder.forward`: starting at
time `ts` with `fuel` remaining iterations and the membrane potential of
the pure recurrence `encoderVZ` at `ts`, the loop succeeds; the final
potential is that of the recurrence at `N`; every buffer entry at time
`≥ ts` holds the recurrence value of its time step, and entries below
`ts` are untouched. -/
theorem encoderIter_spec {N : ℕ} {shape : List ℕ} {K : Type} [LinearOrderedField K]
    (x : Idx shape → K) (p : LIFParameters K) (dt : K) (hlen : 2 ≤ shape.length) :
    ∀ (fuel ts : ℕ) (st : EncState N shape K), ts + fuel = N →
      st.v = (encoderVZ x p dt ts).2 →
      ∃ st', encoderIter x p dt fuel ts st = some st' ∧
        st'.v = (encoderVZ x p dt N).2 ∧
        (∀ ix : Fin N × Idx shape, ts ≤ ix.1.val →
          st'.voltages ix = (encoderVZ x p dt (ix.1.val + 1)).2 ix.2 ∧
          st'.spikes ix = (encoderVZ x p dt (ix.1.val + 1)).1 ix.2) ∧
        (∀ ix : Fin N × Idx shape, ix.1.val < ts →
          st'.voltages ix = st.voltages ix ∧ st'.spikes ix = st.spikes ix) := by
  intro fuel
  induction fuel with
  | zero =>
    intro ts st hts hv
    refine ⟨st, rfl, ?_, ?_, ?_⟩
    · have hN : ts = N := by omega
      rw [hN] at hv
      exact hv
    · intro ix hix
      have := ix.1.isLt
      exact absurd hix (by omega)
    · intro ix _
      exact ⟨rfl, rfl⟩
  | succ fuel ih =>
    intro ts st hts hv
    have hlt : ts < N := by omega
    have hiter : encoderIter x p dt (fuel + 1) ts st =
        (if h : ts < N then
          match encoderStep x p dt st ⟨ts, h⟩ with
          | none => none
          | some st1 => encoderIter x p dt fuel (ts + 1) st1
        else some st) := rfl
    have hv1 : (encWrite st ⟨ts, hlt⟩ (lif_current_encoder x st.v p dt)).v =
        (encoderVZ x p dt (ts + 1)).2 := by
      show (lif_current_encoder x st.v p dt).2 = _
      rw [hv]
      rfl
    obtain ⟨st', hrun, hvN, hge, hbelow⟩ :=
      ih (ts + 1) (encWrite st ⟨ts, hlt⟩ (lif_current_encoder x st.v p dt)) (by omega) hv1
    refine ⟨st', ?_, hvN, ?_, ?_⟩
    · rw [hiter, dif_pos hlt, encoderStep_eq x p dt hlen st ⟨ts, hlt⟩]
      exact hrun
    · intro ix hix
      rcases Nat.lt_or_ge ts ix.1.val with hgt | hle
      · exact hge ix (by omega)
      · have hx : ix.1.val = ts := by omega
        have hfin : ix.1 = ⟨ts, hlt⟩ := Fin.ext hx
        have h1 := hbelow ix (by omega)
        constructor
        · rw [h1.1]
          simp only [encWrite]
          rw [if_pos hfin, hv, hx]
          rfl
        · rw [h1.2]
          simp only [encWrite]
          rw [if_pos hfin, hv, hx]
          rfl
    · intro ix hix
      have hfin : ix.1 ≠ ⟨ts, hlt⟩ := by
        intro hc
        rw [hc] at hix
        exact Nat.lt_irrefl ts hix
      have h1 := hbelow ix (by omega)
      constructor
      · rw [h1.1]
        simp only [encWrite]
        rw [if_neg hfin]
      · rw [h1.2]
        simp only [encWrite]
        rw [if_neg hfin]

/-- C5 (amended): on an input with at least two dimensions,
`LIFConstantCurrentEncoder.forward` returns a pair of tensors, each of
shape `[seq_length, *S]` as fixed by the result type
`Tensor (e.seq_length :: shape) K`. -/
theorem encoder_forward_returns_pair {shape : List ℕ} {K : Type} [LinearOrderedField K]
    (e : LIFConstantCurrentEncoder K) (x : Idx shape → K) (hlen : 2 ≤ shape.length) :
    ∃ VZ : Tensor (e.seq_length :: shape) K × Tensor (e.seq_length :: shape) K,
      LIFConstantCurrentEncoder.forward e x = some VZ := by
  obtain ⟨st', hrun, -, -, -⟩ :=
    encoderIter_spec x e.p e.dt hlen e.seq_length 0
      ({ z := fun _ => 0, v := fun _ => 0, voltages := fun _ => 0, spikes := fun _ => 0 } :
        EncState e.seq_length shape K)
      (by omega) rfl
  refine ⟨(st'.voltages, st'.spikes), ?_⟩
  unfold LIFConstantCurrentEncoder.forward
  rw [hrun]

/-- Evaluation witness for `encoder_forward_returns_pair` on the
concrete one-step encoder and a zero input of shape `[1, 1]`. -/
theorem encoder_forward_returns_pair_witness :
    ∃ VZ : Tensor (encW.seq_length :: [1, 1]) ℚ × Tensor (encW.seq_length :: [1, 1]) ℚ,
      LIFConstantCurrentEncoder.forward encW xTwoDim = some VZ :=
  encoder_forward_returns_pair encW xTwoDim (by norm_num)

/-- C5 counterexample: on a one-dimensional input (shape `[1]`) the
slice assignment `voltages[ts, :, :] = v` has too many indices, so the
forward call returns no pair at all — the claim fails for inputs of
fewer than two dimensions. -/
theorem encoder_forward_one_dim_none :
    LIFConstantCurrentEncoder.forward encW xOneDim = none := rfl

/-- C6 (amended): on an input with at least two dimensions, the encoder
starts from zero spike and zero membrane state, applies the
current-encoder step `seq_length` times with the same constant input
(the pure recurrence `encoderVZ`), and records step `t`'s potential and
spike at time index `t` of the returned full traces. -/
theorem encoder_forward_trace {shape : List ℕ} {K : Type} [LinearOrderedField K]
    (e : LIFConstantCurrentEncoder K) (x : Idx shape → K) (hlen : 2 ≤ shape.length) :
    ∃ V Z : Tensor (e.seq_length :: shape) K,
      LIFConstantCurrentEncoder.forward e x = some (V, Z) ∧
      ∀ (t : Fin e.seq_length) (ix : Idx shape),
        V (t, ix) = (encoderVZ x e.p e.dt (t.val + 1)).2 ix ∧
        Z (t, ix) = (encoderVZ x e.p e.dt (t.val + 1)).1 ix := by
  obtain ⟨st', hrun, -, hge, -⟩ :=
    encoderIter_spec x e.p e.dt hlen e.seq_length 0
      ({ z := fun _ => 0, v := fun _ => 0, voltages := fun _ => 0, spikes := fun _ => 0 } :
        EncState e.seq_length shape K)
      (by omega) rfl
  refine ⟨st'.voltages, st'.spikes, ?_, ?_⟩
  · unfold LIFConstantCurrentEncoder.forward
    rw [hrun]
  · intro t ix
    exact hge (t, ix) (Nat.zero_le _)

/-- Evaluation witness for `encoder_forward_trace` on the concrete
one-step encoder and a zero input of shape `[1, 1]`. -/
theorem encoder_forward_trace_witness :
    ∃ V Z : Tensor (encW.seq_length :: [1, 1]) ℚ,
      LIFConstantCurrentEncoder.forward encW xTwoDim = some (V, Z) ∧
      ∀ (t : Fin encW.seq_length) (ix : Idx [1, 1]),
        V (t, ix) = (encoderVZ xTwoDim encW.p encW.dt (t.val + 1)).2 ix ∧
        Z (t, ix) = (encoderVZ xTwoDim encW.p encW.dt (t.val + 1)).1 ix :=
  encoder_forward_trace encW xTwoDim (by norm_num)

/-- C6 counterexample: on a zero-dimensional (scalar-shaped) input the
slice assignment fails, the forward call returns no traces at all, so
the per-step recording property cannot hold for every input. -/
theorem encoder_forward_scalar_none :
    LIFConstantCurrentEncoder.forward encW xScalar = none := rfl

/-- C10: on an input whose time dimension is empty, the loop body of
`LIFLayer.forward` never runs (the accumulator loop returns the initial
accumulator and state unchanged) and stacking the empty output list
fails in the tensor engine, so `forward` returns no
`(stacked_outputs, state)` pair at all. -/
theorem layer_forward_empty {Inp Out St : Type} (l : LIFLayer Inp Out St) (s : St) :
    LIFLayer.runLoop l.cell [] s [] = ([], s) ∧
      LIFLayer.forward l [] s = none :=
  ⟨rfl, rfl⟩
